import Mathlib

/-!
# Verification of `image/renderer/renderer.go`

A shallow embedding of the meme renderer: the size guard `checkSize`, the font
fitting loop `calculateFontSize`, the outlined text routine `drawText`, the two
banner wrappers and the entry point `Render`.

Modelling conventions

* `float64` quantities (pixel coordinates, measured widths, angles) are exact
  rationals.  Font sizes run through `75.0, 74.0, ..., 21.0`, which `float64`
  represents exactly, so they are natural numbers.
* The third-party libraries (`nfnt/resize`, `fogleman/gg`, `strings`, `math`)
  are not part of the repository.  Their behaviour is a parameter, `Lib`, of
  every embedded function.
* A drawing context records, in order, every library call made on it, and the
  raster it holds is updated through the library's painting function.
-/

namespace Meme

/-! ## Constants of `renderer.go` -/

/-- Radius of the text border in px (`fontBorderRadius = 3.0`). -/
def fontBorderRadius : ℚ := 3

/-- Line spacing factor (`fontLeading = 1.4`). -/
def fontLeading : ℚ := 7 / 5

/-- Largest font size tried, in points (`maxFontSize = 75.0`). -/
def maxFontSize : Nat := 75

/-- Height divisor of the top banner (`topTextDivisor = 5.0`). -/
def topTextDivisor : ℚ := 5

/-- Margin kept around the text in px (`imageMargin = 18.0`). -/
def imageMargin : ℚ := 18

/-- The `float64` value of the constant `2 * math.Pi`, which is the dyadic
rational `884279719003555 / 2^47`. -/
def twoPi : ℚ := 884279719003555 / 140737488355328

/-- The step of the border loop (`angle += 0.35`). -/
def angleStep : ℚ := 7 / 20

/-! ## Data model -/

/-- An `image.Image`: `Dx` and `Dy` are `img.Bounds().Dx()` and
`img.Bounds().Dy()`, `pix` is the raster content, left uninterpreted. -/
structure Image where
  Dx : Nat
  Dy : Nat
  pix : List Nat
deriving DecidableEq

/-- The alignment argument of `DrawStringWrapped`. -/
inductive Align where
  | AlignLeft
  | AlignCenter
  | AlignRight
deriving DecidableEq

/-- The arguments of one `ctx.DrawStringWrapped(s, x, y, ax, ay, width,
lineSpacing, align)` call. -/
structure DrawArgs where
  s : String
  x : ℚ
  y : ℚ
  ax : ℚ
  ay : ℚ
  width : ℚ
  lineSpacing : ℚ
  align : Align
deriving DecidableEq

/-- A library call made on a drawing context. -/
inductive Call where
  | LoadFontFace (points : Nat)
  | WordWrap (s : String) (w : ℚ)
  | MeasureString (s : String)
  | SetHexColor (c : String)
  | DrawStringWrapped (a : DrawArgs)
deriving DecidableEq

/-- The behaviour of the external libraries.  A font face is `none` for the
built-in face of a fresh context and `some p` for `font.Path` loaded at `p`
points. -/
structure Lib where
  /-- Stands for `resize.Resize(width, height, img, resize.Bilinear)`. -/
  Resize : Nat → Nat → Image → Image
  /-- Stands for `strings.ToUpper`. -/
  ToUpper : String → String
  /-- Stands for `ctx.WordWrap(s, w)` under the current face. -/
  WordWrap : Option Nat → String → ℚ → List String
  /-- Stands for `ctx.MeasureString(s)` under the current face: width, height. -/
  MeasureString : Option Nat → String → ℚ × ℚ
  /-- Stands for `math.Sin`. -/
  Sin : ℚ → ℚ
  /-- Stands for `math.Cos`. -/
  Cos : ℚ → ℚ
  /-- Pixels written by `DrawStringWrapped` under a face and a colour. -/
  Paint : Image → Option Nat → String → DrawArgs → Image

/-- A `*gg.Context`: the raster, the current font face, the current colour and
the calls made so far, oldest first. -/
structure Context where
  im : Image
  face : Option Nat
  color : String
  calls : List Call

/-- Models `gg.NewContextForImage(im)`: a fresh context over a copy of `im`. -/
def NewContextForImage (im : Image) : Context :=
  { im := im, face := none, color := "", calls := [] }

/-- Models `ctx.Width()`. -/
def Context.Width (ctx : Context) : Nat := ctx.im.Dx

/-- Models `ctx.Height()`. -/
def Context.Height (ctx : Context) : Nat := ctx.im.Dy

/-- Models `ctx.Image()`. -/
def Context.Image (ctx : Context) : Image := ctx.im

/-- Models `ctx.LoadFontFace(font.Path, points)`; loading never fails (a
failure ends the process in `output.OnError`). -/
def Context.LoadFontFace (ctx : Context) (points : Nat) : Context :=
  { ctx with face := some points, calls := ctx.calls ++ [Call.LoadFontFace points] }

/-- Models `ctx.WordWrap(s, w)`. -/
def Context.WordWrap (lib : Lib) (ctx : Context) (s : String) (w : ℚ) :
    Context × List String :=
  ({ ctx with calls := ctx.calls ++ [Call.WordWrap s w] }, lib.WordWrap ctx.face s w)

/-- Models `ctx.MeasureString(s)`. -/
def Context.MeasureString (lib : Lib) (ctx : Context) (s : String) :
    Context × (ℚ × ℚ) :=
  ({ ctx with calls := ctx.calls ++ [Call.MeasureString s] }, lib.MeasureString ctx.face s)

/-- Models `ctx.SetHexColor(c)`. -/
def Context.SetHexColor (ctx : Context) (c : String) : Context :=
  { ctx with color := c, calls := ctx.calls ++ [Call.SetHexColor c] }

/-- Models `ctx.DrawStringWrapped(...)`. -/
def Context.DrawStringWrapped (lib : Lib) (ctx : Context) (a : DrawArgs) : Context :=
  { ctx with
    im := lib.Paint ctx.im ctx.face ctx.color a,
    calls := ctx.calls ++ [Call.DrawStringWrapped a] }

/-! ## `checkSize` -/

/-- The free side of `nfnt/resize` for a target side `t`: the side `other`
scaled by `t / side` and rounded as `uint(0.7 + other / (side / t))`. -/
def scaledSide (t side other : Nat) : Nat := (7 * side + 10 * t * other) / (10 * side)

/-- A resize function with the rounding of `nfnt/resize` on an image that has
pixels; the content of the scaled raster is not modelled. -/
def nfntResize (width height : Nat) (img : Image) : Image :=
  if width = 0 then
    if height = 0 then img
    else { Dx := scaledSide height img.Dy img.Dx, Dy := height, pix := [] }
  else if height = 0 then
    { Dx := width, Dy := scaledSide width img.Dx img.Dy, pix := [] }
  else { Dx := width, Dy := height, pix := [] }

/-! ## `calculateFontSize` -/

/-- The inner loop `for _, line := range lines` of `calculateFontSize`: it
measures each line, keeps the largest width seen in `rWidth` (which starts at
`0`) and leaves the height of the line measured last in `lHeight`.  Returns the
context, `rWidth` and `lHeight`. -/
def measureLines (lib : Lib) : List String → Context → ℚ → ℚ → Context × ℚ × ℚ
  | [], ctx, rWidth, lHeight => (ctx, rWidth, lHeight)
  | line :: rest, ctx, rWidth, _ =>
    let r := ctx.MeasureString lib line
    let lWidth := r.2.1
    let lHeight := r.2.2
    measureLines lib rest r.1 (if lWidth > rWidth then lWidth else rWidth) lHeight

/-- The loop `for size := maxFontSize; size > 20; size--` of
`calculateFontSize`, entered with the loop variable equal to the argument. -/
def fontSizeLoop (lib : Lib) (text : String) (width height : ℚ) : Nat → Context → Context
  | 0, ctx => ctx
  | size + 1, ctx =>
    if size + 1 > 20 then
      let ctx1 := ctx.LoadFontFace (size + 1)
      let w := ctx1.WordWrap lib text width
      let lines := w.2
      let m := measureLines lib lines w.1 0 0
      let rWidth := m.2.1
      let lHeight := m.2.2
      let rHeight := (lHeight * fontLeading) * (lines.length : ℚ)
      if rWidth ≤ width ∧ rHeight ≤ height then m.1
      else fontSizeLoop lib text width height size m.1
    else ctx

/-- Models `calculateFontSize(ctx, text, width, height)`. -/
def calculateFontSize (lib : Lib) (ctx : Context) (text : String) (width height : ℚ) :
    Context :=
  fontSizeLoop lib text width height maxFontSize ctx

/-- The value of `rWidth` after the inner loop over `lines`, started at `r`. -/
def rWidthOf (lib : Lib) (face : Option Nat) : List String → ℚ → ℚ
  | [], r => r
  | line :: rest, r =>
    rWidthOf lib face rest
      (if (lib.MeasureString face line).1 > r then (lib.MeasureString face line).1 else r)

/-- The value of `lHeight` after the inner loop over `lines`, started at `h`. -/
def lHeightOf (lib : Lib) (face : Option Nat) : List String → ℚ → ℚ
  | [], h => h
  | line :: rest, _ => lHeightOf lib face rest (lib.MeasureString face line).2

/-- The lines `ctx.WordWrap(text, width)` returns once the face is loaded at
`size` points. -/
def wrappedLines (lib : Lib) (text : String) (width : ℚ) (size : Nat) : List String :=
  lib.WordWrap (some size) text width

/-- The value of `rWidth` in the iteration for `size`. -/
def rWidth (lib : Lib) (text : String) (width : ℚ) (size : Nat) : ℚ :=
  rWidthOf lib (some size) (wrappedLines lib text width size) 0

/-- The value of `rHeight` in the iteration for `size`. -/
def rHeight (lib : Lib) (text : String) (width : ℚ) (size : Nat) : ℚ :=
  (lHeightOf lib (some size) (wrappedLines lib text width size) 0 * fontLeading) *
    ((wrappedLines lib text width size).length : ℚ)

/-- The test `rWidth <= width && rHeight <= height` in the iteration for `size`. -/
def fits (lib : Lib) (text : String) (width height : ℚ) (size : Nat) : Prop :=
  rWidth lib text width size ≤ width ∧ rHeight lib text width size ≤ height

instance (lib : Lib) (text : String) (width height : ℚ) (size : Nat) :
    Decidable (fits lib text width height size) := by
  unfold fits
  exact inferInstance

/-- The number of `LoadFontFace` calls in a list of calls. -/
def loadCount : List Call → Nat
  | [] => 0
  | Call.LoadFontFace _ :: rest => loadCount rest + 1
  | _ :: rest => loadCount rest

/-- The widest wrapped line in the words of the specification: the largest of
the measured widths of `lines`, and `0` for no lines. -/
def widestLine (lib : Lib) (face : Option Nat) (lines : List String) : ℚ :=
  (lines.map (fun line => (lib.MeasureString face line).1)).foldr max 0

/-- The calls made by the body of the iteration for `size`: load the face,
wrap the text, measure each wrapped line. -/
def iterationCalls (lib : Lib) (text : String) (width : ℚ) (size : Nat) : List Call :=
  [Call.LoadFontFace size, Call.WordWrap text width] ++
    (wrappedLines lib text width size).map Call.MeasureString

/-- The context at the end of the body of the iteration for `size`. -/
def afterIteration (lib : Lib) (text : String) (width : ℚ) (size : Nat) (ctx : Context) :
    Context :=
  { im := ctx.im, face := some size, color := ctx.color,
    calls := ctx.calls ++ iterationCalls lib text width size }

/-! ## `drawText` and the banners -/

/-- The arguments of the border draw at `angle` around the anchor `(x, y)`. -/
def borderArgs (lib : Lib) (text : String) (x y ax ay width : ℚ) (angle : ℚ) : DrawArgs :=
  { s := text,
    x := x + lib.Sin angle * fontBorderRadius,
    y := y + lib.Cos angle * fontBorderRadius,
    ax := ax, ay := ay, width := width, lineSpacing := fontLeading,
    align := Align.AlignCenter }

/-- The arguments of the fill draw at the anchor `(x, y)`. -/
def fillArgs (text : String) (x y ax ay width : ℚ) : DrawArgs :=
  { s := text, x := x, y := y, ax := ax, ay := ay, width := width,
    lineSpacing := fontLeading, align := Align.AlignCenter }

/-- The loop `for angle := 0.0; angle < (2 * math.Pi); angle += 0.35` of
`drawText`, entered with the loop variable equal to `angle`. -/
def borderLoop (lib : Lib) (text : String) (x y ax ay width : ℚ) (angle : ℚ)
    (ctx : Context) : Context :=
  if angle < twoPi then
    borderLoop lib text x y ax ay width (angle + angleStep)
      (ctx.DrawStringWrapped lib (borderArgs lib text x y ax ay width angle))
  else ctx
termination_by (⌈(twoPi - angle) / angleStep⌉).toNat
decreasing_by
  rename_i h
  have hs : (0 : ℚ) < angleStep := by norm_num [angleStep]
  have hr : 0 < (twoPi - angle) / angleStep := div_pos (sub_pos.mpr h) hs
  have hc : 0 < ⌈(twoPi - angle) / angleStep⌉ := Int.ceil_pos.mpr hr
  have he : (twoPi - (angle + angleStep)) / angleStep = (twoPi - angle) / angleStep - 1 := by
    field_simp
    ring
  rw [he, Int.ceil_sub_one]
  omega

/-- The border draws for the angles `0, 0.35, ..., 17 * 0.35`, in order. -/
def borderDraws (lib : Lib) (text : String) (x y ax ay width : ℚ) : List DrawArgs :=
  (List.range 18).map
    (fun (k : Nat) => borderArgs lib text x y ax ay width ((k : ℚ) * angleStep))

/-- Models `drawText(ctx, text, x, y, ax, ay, divisor)`. -/
def drawText (lib : Lib) (ctx : Context) (text : String) (x y ax ay divisor : ℚ) : Context :=
  let text := lib.ToUpper text
  let width := (ctx.Width : ℚ) - (imageMargin * 2)
  let height := (ctx.Height : ℚ) / divisor
  let ctx1 := calculateFontSize lib ctx text width height
  let ctx2 := ctx1.SetHexColor "#000"
  let ctx3 := borderLoop lib text x y ax ay width 0 ctx2
  let ctx4 := ctx3.SetHexColor "#FFF"
  ctx4.DrawStringWrapped lib (fillArgs text x y ax ay width)

/-- The draws of one `drawText` call in order: the 18 border draws, then the
fill draw. -/
def textDraws (lib : Lib) (ctx : Context) (text : String) (x y ax ay : ℚ) : List DrawArgs :=
  borderDraws lib (lib.ToUpper text) x y ax ay ((ctx.Width : ℚ) - imageMargin * 2) ++
    [fillArgs (lib.ToUpper text) x y ax ay ((ctx.Width : ℚ) - imageMargin * 2)]

/-- The `DrawStringWrapped` calls in a list of calls, in order. -/
def drawsOf : List Call → List DrawArgs
  | [] => []
  | Call.DrawStringWrapped a :: rest => a :: drawsOf rest
  | _ :: rest => drawsOf rest

/-- The strings handed to `WordWrap` in a list of calls, in order. -/
def wrapsOf : List Call → List String
  | [] => []
  | Call.WordWrap s _ :: rest => s :: wrapsOf rest
  | _ :: rest => wrapsOf rest

/-- The strings handed to `MeasureString` in a list of calls, in order. -/
def measuresOf : List Call → List String
  | [] => []
  | Call.MeasureString s :: rest => s :: measuresOf rest
  | _ :: rest => measuresOf rest

/-! ## A sample library -/

/-- A sample library for concrete evaluation.  Resizing rounds as
`nfnt/resize`; upper-casing maps ASCII letters; word wrap keeps the caption on
one line, as `gg` does for a caption of a single word; a string at `p` points
is `p / 2` px wide per character and `3 p / 4` px high; `Sin` and `Cos` pick a
rational point of the unit circle; painting marks the raster. -/
def sampleLib : Lib :=
  { Resize := nfntResize,
    ToUpper := fun s => String.mk (s.data.map Char.toUpper),
    WordWrap := fun _ s _ => if s = "" then [] else [s],
    MeasureString := fun face s =>
      match face with
      | none => (7 * (s.length : ℚ), 13)
      | some p => ((s.length : ℚ) * p / 2, (p : ℚ) * 3 / 4),
    Sin := fun t => 2 * t / (1 + t ^ 2),
    Cos := fun t => (1 - t ^ 2) / (1 + t ^ 2),
    Paint := fun im _ _ _ => { im with pix := 1 :: im.pix } }

/-- A blank raster of the given size. -/
def blank (w h : Nat) : Image := { Dx := w, Dy := h, pix := [] }

/-! ## Theorems on `checkSize` -/

@[simp] theorem loadCount_append (a b : List Call) :
    loadCount (a ++ b) = loadCount a + loadCount b := by
  induction a with
  | nil => simp [loadCount]
  | cons c rest ih =>
    cases c <;> simp [loadCount, ih]
    omega

@[simp] theorem drawsOf_append (a b : List Call) :
    drawsOf (a ++ b) = drawsOf a ++ drawsOf b := by
  induction a with
  | nil => simp [drawsOf]
  | cons c rest ih => cases c <;> simp [drawsOf, ih]

@[simp] theorem wrapsOf_append (a b : List Call) :
    wrapsOf (a ++ b) = wrapsOf a ++ wrapsOf b := by
  induction a with
  | nil => simp [wrapsOf]
  | cons c rest ih => cases c <;> simp [wrapsOf, ih]

@[simp] theorem measuresOf_append (a b : List Call) :
    measuresOf (a ++ b) = measuresOf a ++ measuresOf b := by
  induction a with
  | nil => simp [measuresOf]
  | cons c rest ih => cases c <;> simp [measuresOf, ih]

@[simp] theorem loadCount_measures (l : List String) :
    loadCount (l.map Call.MeasureString) = 0 := by
  induction l with
  | nil => simp [loadCount]
  | cons c rest ih => simp [loadCount, ih]

@[simp] theorem drawsOf_measures (l : List String) :
    drawsOf (l.map Call.MeasureString) = [] := by
  induction l with
  | nil => simp [drawsOf]
  | cons c rest ih => simp [drawsOf, ih]

@[simp] theorem wrapsOf_measures (l : List String) :
    wrapsOf (l.map Call.MeasureString) = [] := by
  induction l with
  | nil => simp [wrapsOf]
  | cons c rest ih => simp [wrapsOf, ih]

@[simp] theorem measuresOf_measures (l : List String) :
    measuresOf (l.map Call.MeasureString) = l := by
  induction l with
  | nil => simp [measuresOf]
  | cons c rest ih => simp [measuresOf, ih]

/-- The inner loop returns the pure values `rWidthOf` and `lHeightOf` and logs
one `MeasureString` call per line. -/
theorem measureLines_eq (lib : Lib) : ∀ (lines : List String) (ctx : Context) (r h : ℚ),
    measureLines lib lines ctx r h =
      ({ im := ctx.im, face := ctx.face, color := ctx.color,
         calls := ctx.calls ++ lines.map Call.MeasureString },
        rWidthOf lib ctx.face lines r, lHeightOf lib ctx.face lines h) := by
  intro lines
  induction lines with
  | nil => intro ctx r h; simp [measureLines, rWidthOf, lHeightOf]
  | cons line rest ih =>
    intro ctx r h
    simp [measureLines, rWidthOf, lHeightOf, Context.MeasureString, ih]

/-- One iteration of the size loop: the body runs, then the loop stops if the
text fits and goes on with the next smaller size otherwise. -/
theorem fontSizeLoop_succ (lib : Lib) (text : String) (width height : ℚ) (n : Nat)
    (ctx : Context) (hn : n + 1 > 20) :
    fontSizeLoop lib text width height (n + 1) ctx =
      if fits lib text width height (n + 1) then afterIteration lib text width (n + 1) ctx
      else fontSizeLoop lib text width height n (afterIteration lib text width (n + 1) ctx) := by
  rw [fontSizeLoop]
  simp only [hn, if_true, measureLines_eq, Context.LoadFontFace, Context.WordWrap]
  simp only [fits, rWidth, rHeight, wrappedLines, afterIteration, iterationCalls,
    List.append_assoc, List.singleton_append, List.cons_append, List.nil_append]

/-- At or below 20 the size loop does nothing. -/
theorem fontSizeLoop_low (lib : Lib) (text : String) (width height : ℚ) (n : Nat)
    (ctx : Context) (hn : n ≤ 20) :
    fontSizeLoop lib text width height n ctx = ctx := by
  cases n with
  | zero => rw [fontSizeLoop]
  | succ m =>
    rw [fontSizeLoop]
    have : ¬ m + 1 > 20 := by omega
    simp only [this, if_false]

@[simp] theorem loadCount_iterationCalls (lib : Lib) (text : String) (width : ℚ) (size : Nat) :
    loadCount (iterationCalls lib text width size) = 1 := by
  simp [iterationCalls, loadCount]

@[simp] theorem drawsOf_iterationCalls (lib : Lib) (text : String) (width : ℚ) (size : Nat) :
    drawsOf (iterationCalls lib text width size) = [] := by
  simp [iterationCalls, drawsOf]

@[simp] theorem wrapsOf_iterationCalls (lib : Lib) (text : String) (width : ℚ) (size : Nat) :
    wrapsOf (iterationCalls lib text width size) = [text] := by
  simp [iterationCalls, wrapsOf]

@[simp] theorem measuresOf_iterationCalls (lib : Lib) (text : String) (width : ℚ)
    (size : Nat) :
    measuresOf (iterationCalls lib text width size) = wrappedLines lib text width size := by
  simp [iterationCalls, measuresOf]

/-- What the size loop entered at `n` does to a context: the calls it adds, the
fields it leaves alone, and the face it ends on. -/
theorem fontSizeLoop_spec (lib : Lib) (text : String) (width height : ℚ) :
    ∀ (n : Nat) (ctx : Context), ∃ extra : List Call,
      (fontSizeLoop lib text width height n ctx).calls = ctx.calls ++ extra ∧
      (fontSizeLoop lib text width height n ctx).im = ctx.im ∧
      (fontSizeLoop lib text width height n ctx).color = ctx.color ∧
      loadCount extra ≤ n - 20 ∧
      drawsOf extra = [] ∧
      (∀ s ∈ wrapsOf extra, s = text) ∧
      (∀ m ∈ measuresOf extra, ∃ size, 21 ≤ size ∧ size ≤ n ∧
        m ∈ wrappedLines lib text width size) ∧
      (21 ≤ n → ∃ s, (fontSizeLoop lib text width height n ctx).face = some s ∧
        21 ≤ s ∧ s ≤ n ∧
        ((fits lib text width height s ∧
            ∀ t, s < t → t ≤ n → ¬ fits lib text width height t) ∨
          (s = 21 ∧ ∀ t, 21 ≤ t → t ≤ n → ¬ fits lib text width height t))) := by
  intro n
  induction n with
  | zero =>
    intro ctx
    refine ⟨[], ?_⟩
    rw [fontSizeLoop_low lib text width height 0 ctx (by omega)]
    simp [loadCount, drawsOf, wrapsOf, measuresOf]
  | succ n ih =>
    intro ctx
    by_cases hn : n + 1 > 20
    · rw [fontSizeLoop_succ lib text width height n ctx hn]
      by_cases hf : fits lib text width height (n + 1)
      · rw [if_pos hf]
        refine ⟨iterationCalls lib text width (n + 1), rfl, rfl, rfl, ?_, ?_, ?_, ?_, ?_⟩
        · simp; omega
        · simp
        · simp
        · intro m hm
          exact ⟨n + 1, by omega, le_refl _, by simpa using hm⟩
        · intro _
          refine ⟨n + 1, rfl, by omega, le_refl _, Or.inl ⟨hf, ?_⟩⟩
          intro t h1 h2
          omega
      · rw [if_neg hf]
        obtain ⟨extra, hc, hi, hcol, hl, hd, hw, hm, hface⟩ :=
          ih (afterIteration lib text width (n + 1) ctx)
        refine ⟨iterationCalls lib text width (n + 1) ++ extra, ?_, ?_, ?_, ?_, ?_, ?_, ?_, ?_⟩
        · rw [hc]; simp [afterIteration]
        · rw [hi]; rfl
        · rw [hcol]; rfl
        · simp; omega
        · simp [hd]
        · intro s hs
          simp only [wrapsOf_append, wrapsOf_iterationCalls, List.mem_append,
            List.mem_singleton] at hs
          rcases hs with hs | hs
          · exact hs
          · exact hw s hs
        · intro m hmm
          simp only [measuresOf_append, measuresOf_iterationCalls, List.mem_append] at hmm
          rcases hmm with hmm | hmm
          · exact ⟨n + 1, by omega, le_refl _, hmm⟩
          · obtain ⟨size, h1, h2, h3⟩ := hm m hmm
            exact ⟨size, h1, by omega, h3⟩
        · intro _
          by_cases h21 : 21 ≤ n
          · obtain ⟨s, hs, hs1, hs2, hcase⟩ := hface h21
            refine ⟨s, hs, hs1, by omega, ?_⟩
            rcases hcase with ⟨hfit, hno⟩ | ⟨he, hno⟩
            · left
              refine ⟨hfit, ?_⟩
              intro t h1 h2
              by_cases ht : t = n + 1
              · rw [ht]; exact hf
              · exact hno t h1 (by omega)
            · right
              refine ⟨he, ?_⟩
              intro t h1 h2
              by_cases ht : t = n + 1
              · rw [ht]; exact hf
              · exact hno t h1 (by omega)
          · have hn20 : n = 20 := by omega
            subst hn20
            rw [fontSizeLoop_low lib text width height 20 _ (le_refl _)]
            refine ⟨21, rfl, le_refl _, le_refl _, Or.inr ⟨rfl, ?_⟩⟩
            intro t h1 h2
            have : t = 21 := by omega
            rw [this]; exact hf
    · refine ⟨[], ?_⟩
      rw [fontSizeLoop_low lib text width height (n + 1) ctx (by omega)]
      refine ⟨by simp, rfl, rfl, by simp [loadCount], by simp [drawsOf], ?_, ?_, ?_⟩
      · intro s hs; simp [wrapsOf] at hs
      · intro m hm; simp [measuresOf] at hm
      · intro h; omega

theorem foldr_max_start (l : List ℚ) (r w : ℚ) :
    l.foldr max (max r w) = max w (l.foldr max r) := by
  induction l with
  | nil => simp [max_comm]
  | cons a rest ih => simp [ih, max_left_comm]

/-- The value `rWidth` accumulates is the largest of its start value and the
measured widths. -/
theorem rWidthOf_eq_foldr (lib : Lib) (face : Option Nat) :
    ∀ (lines : List String) (r : ℚ),
      rWidthOf lib face lines r =
        (lines.map (fun line => (lib.MeasureString face line).1)).foldr max r := by
  intro lines
  induction lines with
  | nil => intro r; simp [rWidthOf]
  | cons line rest ih =>
    intro r
    have e : (if (lib.MeasureString face line).1 > r then (lib.MeasureString face line).1
        else r) = max r (lib.MeasureString face line).1 := by
      by_cases h : (lib.MeasureString face line).1 > r
      · rw [if_pos h, max_eq_right (le_of_lt h)]
      · rw [if_neg h, max_eq_left (not_lt.mp h)]
    rw [rWidthOf, e, ih, foldr_max_start]
    simp

/-- Every measured line is at most as wide as the accumulated `rWidth`. -/
theorem le_rWidthOf (lib : Lib) (face : Option Nat) :
    ∀ (lines : List String) (r : ℚ) (line : String), line ∈ lines →
      (lib.MeasureString face line).1 ≤ rWidthOf lib face lines r := by
  intro lines r line hl
  rw [rWidthOf_eq_foldr]
  induction lines with
  | nil => simp at hl
  | cons a rest ih =>
    simp only [List.map_cons, List.foldr_cons]
    rcases List.mem_cons.mp hl with h | h
    · rw [h]; exact le_max_left _ _
    · exact le_trans (ih h) (le_max_right _ _)

/-- When every line measures the same height, `lHeight` ends on that height
(or stays at its start value when there is no line). -/
theorem lHeightOf_const (lib : Lib) (face : Option Nat) (hgt : ℚ) :
    ∀ (lines : List String) (h0 : ℚ),
      (∀ line ∈ lines, (lib.MeasureString face line).2 = hgt) →
      lHeightOf lib face lines h0 = if lines = [] then h0 else hgt := by
  intro lines
  induction lines with
  | nil => intro h0 _; simp [lHeightOf]
  | cons a rest ih =>
    intro h0 hall
    rw [lHeightOf, ih _ (fun line hl => hall line (List.mem_cons_of_mem _ hl))]
    by_cases hr : rest = []
    · simp [hr, hall a (List.mem_cons_self _ _)]
    · simp [hr]

/-- C2: `calculateFontSize` is total and runs at most 55 iterations (one
`LoadFontFace` call each); the face it leaves loaded has a whole size between
21 and 75; when no size from 21 to 75 fits, that size is 21. -/
theorem calculateFontSize_bounded (lib : Lib) (ctx : Context) (text : String)
    (width height : ℚ) :
    (∃ extra : List Call,
      (calculateFontSize lib ctx text width height).calls = ctx.calls ++ extra ∧
      loadCount extra ≤ 55) ∧
    (∃ s : Nat, (calculateFontSize lib ctx text width height).face = some s ∧
      21 ≤ s ∧ s ≤ 75) ∧
    ((∀ t, 21 ≤ t → t ≤ 75 → ¬ fits lib text width height t) →
      (calculateFontSize lib ctx text width height).face = some 21) := by
  unfold calculateFontSize maxFontSize
  obtain ⟨extra, hc, _, _, hl, _, _, _, hface⟩ := fontSizeLoop_spec lib text width height 75 ctx
  obtain ⟨s, hs, h1, h2, hcase⟩ := hface (by omega)
  refine ⟨⟨extra, hc, by omega⟩, ⟨s, hs, h1, h2⟩, ?_⟩
  intro hno
  rcases hcase with ⟨hfit, _⟩ | ⟨he, _⟩
  · exact absurd hfit (hno s h1 h2)
  · rw [hs, he]

/-- C3: the size `calculateFontSize` ends on is the largest size from 75 down
to 21 at which the wrapped text fits the box, and 21 when none fits; when the
text fits at 75 the size is 75.  Here `rWidth` is the widest wrapped line and
`rHeight` is the line height times 1.4 times the number of lines. -/
theorem calculateFontSize_largest_fit (lib : Lib) (ctx : Context) (text : String)
    (width height : ℚ) :
    (∃ s : Nat, (calculateFontSize lib ctx text width height).face = some s ∧
      21 ≤ s ∧ s ≤ 75 ∧
      ((fits lib text width height s ∧
          ∀ t, s < t → t ≤ 75 → ¬ fits lib text width height t) ∨
        (s = 21 ∧ ∀ t, 21 ≤ t → t ≤ 75 → ¬ fits lib text width height t))) ∧
    (fits lib text width height 75 →
      (calculateFontSize lib ctx text width height).face = some 75) ∧
    (∀ size, fits lib text width height size ↔
      (rWidth lib text width size ≤ width ∧ rHeight lib text width size ≤ height)) ∧
    (∀ size, rWidth lib text width size =
      widestLine lib (some size) (wrappedLines lib text width size)) ∧
    (∀ size lineHeight,
      (∀ line ∈ wrappedLines lib text width size,
        (lib.MeasureString (some size) line).2 = lineHeight) →
      rHeight lib text width size =
        lineHeight * (7 / 5) * ((wrappedLines lib text width size).length : ℚ)) := by
  have hspec := fontSizeLoop_spec lib text width height 75 ctx
  obtain ⟨extra, _, _, _, _, _, _, _, hface⟩ := hspec
  obtain ⟨s, hs, h1, h2, hcase⟩ := hface (by omega)
  refine ⟨?_, ?_, ?_, ?_, ?_⟩
  · exact ⟨s, hs, h1, h2, hcase⟩
  · intro h75
    unfold calculateFontSize maxFontSize
    rw [fontSizeLoop_succ lib text width height 74 ctx (by omega), if_pos h75]
    rfl
  · intro size
    exact Iff.rfl
  · intro size
    unfold rWidth widestLine
    rw [rWidthOf_eq_foldr]
  · intro size lineHeight hall
    unfold rHeight fontLeading
    rw [lHeightOf_const lib (some size) lineHeight _ 0 hall]
    by_cases he : wrappedLines lib text width size = []
    · simp [he]
    · simp [he]

/-! ## Theorems on `drawText` -/

theorem borderLoop_step (lib : Lib) (text : String) (x y ax ay width angle : ℚ)
    (ctx : Context) (h : angle < twoPi) :
    borderLoop lib text x y ax ay width angle ctx =
      borderLoop lib text x y ax ay width (angle + angleStep)
        (ctx.DrawStringWrapped lib (borderArgs lib text x y ax ay width angle)) := by
  rw [borderLoop, if_pos h]

theorem borderLoop_done (lib : Lib) (text : String) (x y ax ay width angle : ℚ)
    (ctx : Context) (h : ¬ angle < twoPi) :
    borderLoop lib text x y ax ay width angle ctx = ctx := by
  rw [borderLoop, if_neg h]

/-- Entered at the `k`-th angle with `m` angles left of the 18, the border loop
draws at those `m` angles in turn and stops. -/
theorem borderLoop_from (lib : Lib) (text : String) (x y ax ay width : ℚ) :
    ∀ (m k : Nat) (ctx : Context), k + m = 18 →
      borderLoop lib text x y ax ay width ((k : ℚ) * angleStep) ctx =
        (List.range' k m).foldl
          (fun c j => c.DrawStringWrapped lib
            (borderArgs lib text x y ax ay width ((j : ℚ) * angleStep))) ctx := by
  intro m
  induction m with
  | zero =>
    intro k ctx hk
    have hk18 : k = 18 := by omega
    subst hk18
    rw [borderLoop_done]
    · rfl
    · norm_num [twoPi, angleStep]
  | succ m ih =>
    intro k ctx hk
    have hlt : (k : ℚ) * angleStep < twoPi := by
      have h17 : (k : ℚ) ≤ 17 := by exact_mod_cast (by omega : k ≤ 17)
      have : (k : ℚ) * angleStep ≤ 17 * angleStep :=
        mul_le_mul_of_nonneg_right h17 (by norm_num [angleStep])
      refine lt_of_le_of_lt this ?_
      norm_num [twoPi, angleStep]
    rw [borderLoop_step _ _ _ _ _ _ _ _ _ hlt]
    have e : (k : ℚ) * angleStep + angleStep = ((k + 1 : Nat) : ℚ) * angleStep := by
      push_cast; ring
    rw [e, ih (k + 1) _ (by omega)]
    rfl

/-- Drawing a list of argument records in turn: the face and colour stay, the
raster is painted once per record, one call is logged per record. -/
theorem foldl_draw (lib : Lib) : ∀ (l : List DrawArgs) (ctx : Context),
    l.foldl (fun c a => c.DrawStringWrapped lib a) ctx =
      { im := l.foldl (fun im a => lib.Paint im ctx.face ctx.color a) ctx.im,
        face := ctx.face, color := ctx.color,
        calls := ctx.calls ++ l.map Call.DrawStringWrapped } := by
  intro l
  induction l with
  | nil => intro ctx; simp
  | cons a rest ih =>
    intro ctx
    rw [List.foldl_cons, ih]
    simp [Context.DrawStringWrapped]

/-- The whole border loop, from angle 0: the 18 border draws. -/
theorem borderLoop_zero (lib : Lib) (text : String) (x y ax ay width : ℚ) (ctx : Context) :
    borderLoop lib text x y ax ay width 0 ctx =
      { im := (borderDraws lib text x y ax ay width).foldl
          (fun im a => lib.Paint im ctx.face ctx.color a) ctx.im,
        face := ctx.face, color := ctx.color,
        calls := ctx.calls ++ (borderDraws lib text x y ax ay width).map
          Call.DrawStringWrapped } := by
  have h := borderLoop_from lib text x y ax ay width 18 0 ctx (by omega)
  simp only [Nat.cast_zero, zero_mul] at h
  rw [h, ← foldl_draw, borderDraws, List.range_eq_range', List.foldl_map]

@[simp] theorem drawsOf_draws (l : List DrawArgs) :
    drawsOf (l.map Call.DrawStringWrapped) = l := by
  induction l with
  | nil => simp [drawsOf]
  | cons c rest ih => simp [drawsOf, ih]

@[simp] theorem wrapsOf_draws (l : List DrawArgs) :
    wrapsOf (l.map Call.DrawStringWrapped) = [] := by
  induction l with
  | nil => simp [wrapsOf]
  | cons c rest ih => simp [wrapsOf, ih]

@[simp] theorem measuresOf_draws (l : List DrawArgs) :
    measuresOf (l.map Call.DrawStringWrapped) = [] := by
  induction l with
  | nil => simp [measuresOf]
  | cons c rest ih => simp [measuresOf, ih]

/-- The context `drawText` returns, field by field. -/
theorem drawText_eq (lib : Lib) (ctx : Context) (text : String) (x y ax ay divisor : ℚ) :
    drawText lib ctx text x y ax ay divisor =
      { im := lib.Paint
          ((borderDraws lib (lib.ToUpper text) x y ax ay
              ((ctx.Width : ℚ) - imageMargin * 2)).foldl
            (fun im a => lib.Paint im
              (calculateFontSize lib ctx (lib.ToUpper text)
                ((ctx.Width : ℚ) - imageMargin * 2) ((ctx.Height : ℚ) / divisor)).face
              "#000" a)
            (calculateFontSize lib ctx (lib.ToUpper text)
              ((ctx.Width : ℚ) - imageMargin * 2) ((ctx.Height : ℚ) / divisor)).im)
          (calculateFontSize lib ctx (lib.ToUpper text)
            ((ctx.Width : ℚ) - imageMargin * 2) ((ctx.Height : ℚ) / divisor)).face
          "#FFF"
          (fillArgs (lib.ToUpper text) x y ax ay ((ctx.Width : ℚ) - imageMargin * 2)),
        face := (calculateFontSize lib ctx (lib.ToUpper text)
          ((ctx.Width : ℚ) - imageMargin * 2) ((ctx.Height : ℚ) / divisor)).face,
        color := "#FFF",
        calls := (calculateFontSize lib ctx (lib.ToUpper text)
            ((ctx.Width : ℚ) - imageMargin * 2) ((ctx.Height : ℚ) / divisor)).calls ++
          [Call.SetHexColor "#000"] ++
          (borderDraws lib (lib.ToUpper text) x y ax ay
            ((ctx.Width : ℚ) - imageMargin * 2)).map Call.DrawStringWrapped ++
          [Call.SetHexColor "#FFF",
            Call.DrawStringWrapped
              (fillArgs (lib.ToUpper text) x y ax ay ((ctx.Width : ℚ) - imageMargin * 2))] } := by
  unfold drawText
  simp only [borderLoop_zero, Context.SetHexColor, Context.DrawStringWrapped,
    List.append_assoc, List.singleton_append, List.cons_append, List.nil_append]

/-- The calls `drawText` adds to a context: those of the font fitting, which
draw nothing and wrap and measure the upper-cased text only, then the colour
and draw calls. -/
theorem drawText_calls (lib : Lib) (ctx : Context) (text : String) (x y ax ay divisor : ℚ) :
    ∃ fe : List Call,
      (calculateFontSize lib ctx (lib.ToUpper text)
        ((ctx.Width : ℚ) - imageMargin * 2) ((ctx.Height : ℚ) / divisor)).calls =
        ctx.calls ++ fe ∧
      (drawText lib ctx text x y ax ay divisor).calls =
        ctx.calls ++ (fe ++ [Call.SetHexColor "#000"] ++
          (borderDraws lib (lib.ToUpper text) x y ax ay
            ((ctx.Width : ℚ) - imageMargin * 2)).map Call.DrawStringWrapped ++
          [Call.SetHexColor "#FFF",
            Call.DrawStringWrapped
              (fillArgs (lib.ToUpper text) x y ax ay ((ctx.Width : ℚ) - imageMargin * 2))]) ∧
      drawsOf fe = [] ∧
      (∀ s ∈ wrapsOf fe, s = lib.ToUpper text) ∧
      (∀ m ∈ measuresOf fe, ∃ size, 21 ≤ size ∧ size ≤ 75 ∧
        m ∈ lib.WordWrap (some size) (lib.ToUpper text)
          ((ctx.Width : ℚ) - imageMargin * 2)) := by
  obtain ⟨fe, hc, _, _, _, hd, hw, hm, _⟩ :=
    fontSizeLoop_spec lib (lib.ToUpper text) ((ctx.Width : ℚ) - imageMargin * 2)
      ((ctx.Height : ℚ) / divisor) 75 ctx
  refine ⟨fe, hc, ?_, hd, hw, hm⟩
  rw [drawText_eq]
  show (calculateFontSize lib ctx (lib.ToUpper text) _ _).calls ++ _ ++ _ ++ _ = _
  have hc2 : (calculateFontSize lib ctx (lib.ToUpper text)
      ((ctx.Width : ℚ) - imageMargin * 2) ((ctx.Height : ℚ) / divisor)).calls =
      ctx.calls ++ fe := hc
  rw [hc2]
  simp only [List.append_assoc]

theorem sample_upper_hello : sampleLib.ToUpper "hello world" = "HELLO WORLD" := by
  decide

/-- The part of the call log that `drawText` adds after the font fitting, seen
through the three projections of the log. -/
theorem tail_projections (fe : List Call) (l : List DrawArgs) (f : DrawArgs) (a b : String) :
    drawsOf (fe ++ [Call.SetHexColor a] ++ l.map Call.DrawStringWrapped ++
      [Call.SetHexColor b, Call.DrawStringWrapped f]) = drawsOf fe ++ (l ++ [f]) ∧
    wrapsOf (fe ++ [Call.SetHexColor a] ++ l.map Call.DrawStringWrapped ++
      [Call.SetHexColor b, Call.DrawStringWrapped f]) = wrapsOf fe ∧
    measuresOf (fe ++ [Call.SetHexColor a] ++ l.map Call.DrawStringWrapped ++
      [Call.SetHexColor b, Call.DrawStringWrapped f]) = measuresOf fe := by
  refine ⟨?_, ?_, ?_⟩
  · simp only [drawsOf_append, drawsOf_draws, drawsOf, List.append_nil]
    simp only [List.append_assoc]
  · simp only [wrapsOf_append, wrapsOf_draws, wrapsOf, List.append_nil]
  · simp only [measuresOf_append, measuresOf_draws, measuresOf, List.append_nil]

/-- The draws of `drawText`: 19 of them, all with the upper-cased text, the
anchoring fractions handed in, the wrap width, leading 1.4 and centred lines. -/
theorem textDraws_props (lib : Lib) (ctx : Context) (text : String) (x y ax ay : ℚ) :
    (textDraws lib ctx text x y ax ay).length = 19 ∧
    ∀ a ∈ textDraws lib ctx text x y ax ay,
      a.s = lib.ToUpper text ∧ a.ax = ax ∧ a.ay = ay ∧
      a.width = (ctx.Width : ℚ) - imageMargin * 2 ∧ a.lineSpacing = 7 / 5 ∧
      a.align = Align.AlignCenter := by
  constructor
  · simp [textDraws, borderDraws]
  · intro a ha
    simp only [textDraws, borderDraws, List.mem_append, List.mem_map, List.mem_singleton] at ha
    rcases ha with ⟨k, _, hk⟩ | ha
    · rw [← hk]
      simp [borderArgs, fontLeading]
    · rw [ha]
      simp [fillArgs, fontLeading]

/-- C9: after the font fitting, `drawText` sets the colour to black, draws
once per angle 0, 0.35, ... below 2π (18 draws, the k-th at
`(x + sin(0.35 k) * 3, y + cos(0.35 k) * 3)`), sets the colour to white and
draws once at `(x, y)`; all 19 draws carry the same text, `ax`, `ay`, wrap
width, leading 1.4 and centre alignment; when `sin² + cos² = 1` every border
draw lies at distance 3 from the anchor. -/
theorem drawText_draw_order (lib : Lib) (ctx : Context) (text : String)
    (x y ax ay divisor : ℚ) :
    (drawText lib ctx text x y ax ay divisor).calls =
      (calculateFontSize lib ctx (lib.ToUpper text)
        ((ctx.Width : ℚ) - imageMargin * 2) ((ctx.Height : ℚ) / divisor)).calls ++
      [Call.SetHexColor "#000"] ++
      (borderDraws lib (lib.ToUpper text) x y ax ay
        ((ctx.Width : ℚ) - imageMargin * 2)).map Call.DrawStringWrapped ++
      [Call.SetHexColor "#FFF",
        Call.DrawStringWrapped
          (fillArgs (lib.ToUpper text) x y ax ay ((ctx.Width : ℚ) - imageMargin * 2))] ∧
    (borderDraws lib (lib.ToUpper text) x y ax ay
      ((ctx.Width : ℚ) - imageMargin * 2)).length = 18 ∧
    (∀ k : Nat, k < 18 →
      (borderDraws lib (lib.ToUpper text) x y ax ay
        ((ctx.Width : ℚ) - imageMargin * 2))[k]? =
      some { s := lib.ToUpper text,
             x := x + lib.Sin ((k : ℚ) * (7 / 20)) * 3,
             y := y + lib.Cos ((k : ℚ) * (7 / 20)) * 3,
             ax := ax, ay := ay, width := (ctx.Width : ℚ) - imageMargin * 2,
             lineSpacing := 7 / 5, align := Align.AlignCenter }) ∧
    (∀ k : Nat, (k : ℚ) * (7 / 20) < twoPi ↔ k < 18) ∧
    fillArgs (lib.ToUpper text) x y ax ay ((ctx.Width : ℚ) - imageMargin * 2) =
      { s := lib.ToUpper text, x := x, y := y, ax := ax, ay := ay,
        width := (ctx.Width : ℚ) - imageMargin * 2,
        lineSpacing := 7 / 5, align := Align.AlignCenter } ∧
    (drawText lib ctx text x y ax ay divisor).im =
      lib.Paint
        ((borderDraws lib (lib.ToUpper text) x y ax ay
            ((ctx.Width : ℚ) - imageMargin * 2)).foldl
          (fun im a => lib.Paint im
            (calculateFontSize lib ctx (lib.ToUpper text)
              ((ctx.Width : ℚ) - imageMargin * 2) ((ctx.Height : ℚ) / divisor)).face
            "#000" a)
          (calculateFontSize lib ctx (lib.ToUpper text)
            ((ctx.Width : ℚ) - imageMargin * 2) ((ctx.Height : ℚ) / divisor)).im)
        (calculateFontSize lib ctx (lib.ToUpper text)
          ((ctx.Width : ℚ) - imageMargin * 2) ((ctx.Height : ℚ) / divisor)).face
        "#FFF"
        (fillArgs (lib.ToUpper text) x y ax ay ((ctx.Width : ℚ) - imageMargin * 2)) ∧
    ((∀ t : ℚ, lib.Sin t ^ 2 + lib.Cos t ^ 2 = 1) →
      ∀ a ∈ borderDraws lib (lib.ToUpper text) x y ax ay
          ((ctx.Width : ℚ) - imageMargin * 2),
        (a.x - x) ^ 2 + (a.y - y) ^ 2 = 3 ^ 2) := by
  refine ⟨?_, ?_, ?_, ?_, ?_, ?_, ?_⟩
  · rw [drawText_eq]
  · simp [borderDraws]
  · intro k hk
    simp [borderDraws, List.getElem?_range hk, borderArgs, angleStep, fontBorderRadius,
      fontLeading]
  · intro k
    constructor
    · intro h
      by_contra hk
      have h18 : (18 : ℚ) ≤ (k : ℚ) := by exact_mod_cast (by omega : 18 ≤ k)
      unfold twoPi at h
      linarith
    · intro hk
      have h17 : (k : ℚ) ≤ 17 := by exact_mod_cast (by omega : k ≤ 17)
      unfold twoPi
      linarith
  · simp [fillArgs, fontLeading]
  · rw [drawText_eq]
  · intro hcircle a ha
    simp only [borderDraws, List.mem_map] at ha
    obtain ⟨k, _, hk⟩ := ha
    rw [← hk]
    simp only [borderArgs, fontBorderRadius]
    have := hcircle ((k : ℚ) * angleStep)
    linear_combination 9 * this

theorem drawText_draw_order_witness :
    (∀ t : ℚ, sampleLib.Sin t ^ 2 + sampleLib.Cos t ^ 2 = 1) ∧
    ∀ a ∈ borderDraws sampleLib (sampleLib.ToUpper "hello") 300 18 (1 / 2) 0
        (((NewContextForImage (blank 600 400)).Width : ℚ) - imageMargin * 2),
      (a.x - 300) ^ 2 + (a.y - 18) ^ 2 = 3 ^ 2 := by
  have hcircle : ∀ t : ℚ, sampleLib.Sin t ^ 2 + sampleLib.Cos t ^ 2 = 1 := by
    intro t
    have hpos : (1 + t ^ 2) ≠ 0 := by positivity
    simp only [sampleLib]
    field_simp
    ring
  exact ⟨hcircle,
    (drawText_draw_order sampleLib (NewContextForImage (blank 600 400)) "hello" 300 18
      (1 / 2) 0 topTextDivisor).2.2.2.2.2.2 hcircle⟩

/-- C10: `drawText` hands the upper-cased caption to `calculateFontSize`; every
`WordWrap` call and every draw call it adds carries the upper-cased caption,
and every string measured is a line wrapped from the upper-cased caption. -/
theorem drawText_uppercase (lib : Lib) (ctx : Context) (text : String)
    (x y ax ay divisor : ℚ) :
    ∃ extra : List Call,
      (drawText lib ctx text x y ax ay divisor).calls = ctx.calls ++ extra ∧
      (∃ rest, (drawText lib ctx text x y ax ay divisor).calls =
        (calculateFontSize lib ctx (lib.ToUpper text)
          ((ctx.Width : ℚ) - imageMargin * 2) ((ctx.Height : ℚ) / divisor)).calls ++ rest) ∧
      (∀ s ∈ wrapsOf extra, s = lib.ToUpper text) ∧
      (drawsOf extra).length = 19 ∧
      (∀ a ∈ drawsOf extra, a.s = lib.ToUpper text) ∧
      (∀ m ∈ measuresOf extra, ∃ size, 21 ≤ size ∧ size ≤ 75 ∧
        m ∈ lib.WordWrap (some size) (lib.ToUpper text)
          ((ctx.Width : ℚ) - imageMargin * 2)) := by
  obtain ⟨fe, hcf, hc, hd, hw, hm⟩ := drawText_calls lib ctx text x y ax ay divisor
  have hprops := textDraws_props lib ctx text x y ax ay
  have hproj := tail_projections fe
    (borderDraws lib (lib.ToUpper text) x y ax ay ((ctx.Width : ℚ) - imageMargin * 2))
    (fillArgs (lib.ToUpper text) x y ax ay ((ctx.Width : ℚ) - imageMargin * 2)) "#000" "#FFF"
  obtain ⟨hpd, hpw, hpm⟩ := hproj
  rw [hd, List.nil_append] at hpd
  refine ⟨fe ++ [Call.SetHexColor "#000"] ++
      (borderDraws lib (lib.ToUpper text) x y ax ay
        ((ctx.Width : ℚ) - imageMargin * 2)).map Call.DrawStringWrapped ++
      [Call.SetHexColor "#FFF",
        Call.DrawStringWrapped
          (fillArgs (lib.ToUpper text) x y ax ay ((ctx.Width : ℚ) - imageMargin * 2))],
    hc, ?_, ?_, ?_, ?_, ?_⟩
  · refine ⟨[Call.SetHexColor "#000"] ++
      (borderDraws lib (lib.ToUpper text) x y ax ay
        ((ctx.Width : ℚ) - imageMargin * 2)).map Call.DrawStringWrapped ++
      [Call.SetHexColor "#FFF",
        Call.DrawStringWrapped
          (fillArgs (lib.ToUpper text) x y ax ay ((ctx.Width : ℚ) - imageMargin * 2))], ?_⟩
    rw [drawText_eq]
    simp only [List.append_assoc]
  · intro s hs
    rw [hpw] at hs
    exact hw s hs
  · rw [hpd]; exact hprops.1
  · intro a ha
    rw [hpd] at ha
    exact (hprops.2 a ha).1
  · intro m hmm
    rw [hpm] at hmm
    exact hm m hmm

/-- In the sample library the caption "OVERFLOWING" fits a box 64 px wide at no
size from 21 points up. -/
theorem sample_overflowing_no_fit (height : ℚ) (t : Nat) (h1 : 21 ≤ t) :
    ¬ fits sampleLib "OVERFLOWING" (100 - imageMargin * 2) height t := by
  intro hfit
  have hlen : ("OVERFLOWING" : String).length = 11 := by decide
  have hne : ¬ (("OVERFLOWING" : String) = "") := by decide
  have hw := hfit.1
  unfold rWidth wrappedLines at hw
  have hlines : ∀ w : ℚ, sampleLib.WordWrap (some t) "OVERFLOWING" w = ["OVERFLOWING"] := by
    intro w
    simp only [sampleLib, hne, if_false]
  rw [hlines] at hw
  have hl := le_rWidthOf sampleLib (some t) ["OVERFLOWING"] 0 "OVERFLOWING"
    (List.mem_singleton.mpr rfl)
  have hm : (sampleLib.MeasureString (some t) "OVERFLOWING").1 = (11 : ℚ) * t / 2 := by
    simp only [sampleLib, hlen]
    norm_num
  rw [hm] at hl
  have ht : (21 : ℚ) ≤ (t : ℚ) := by exact_mod_cast h1
  unfold imageMargin at hw
  linarith

/-- In the sample library the caption "HELLO" fits a box of 564 x 80 px at 75
points. -/
theorem sample_hello_fits : fits sampleLib "HELLO" (600 - imageMargin * 2) (400 / 5) 75 := by
  have hlen : ("HELLO" : String).length = 5 := by decide
  have hne : ¬ (("HELLO" : String) = "") := by decide
  unfold fits rWidth rHeight wrappedLines
  have hlines : ∀ w : ℚ, sampleLib.WordWrap (some 75) "HELLO" w = ["HELLO"] := by
    intro w
    simp only [sampleLib, hne, if_false]
  rw [hlines]
  simp only [rWidthOf, lHeightOf, sampleLib, hlen, fontLeading, imageMargin]
  norm_num

theorem calculateFontSize_bounded_witness :
    (∀ t, 21 ≤ t → t ≤ 75 → ¬ fits sampleLib "OVERFLOWING" (100 - imageMargin * 2) 20 t) ∧
    (calculateFontSize sampleLib (NewContextForImage (blank 100 100)) "OVERFLOWING"
      (100 - imageMargin * 2) 20).face = some 21 :=
  ⟨fun t h1 _ => sample_overflowing_no_fit 20 t h1,
    (calculateFontSize_bounded sampleLib (NewContextForImage (blank 100 100)) "OVERFLOWING"
      (100 - imageMargin * 2) 20).2.2 (fun t h1 _ => sample_overflowing_no_fit 20 t h1)⟩

theorem calculateFontSize_largest_fit_witness :
    fits sampleLib "HELLO" (600 - imageMargin * 2) (400 / 5) 75 ∧
    (calculateFontSize sampleLib (NewContextForImage (blank 600 400)) "HELLO"
      (600 - imageMargin * 2) (400 / 5)).face = some 75 :=
  ⟨sample_hello_fits,
    (calculateFontSize_largest_fit sampleLib (NewContextForImage (blank 600 400)) "HELLO"
      (600 - imageMargin * 2) (400 / 5)).2.1 sample_hello_fits⟩

theorem drawText_uppercase_witness :
    ∃ extra : List Call,
      (drawText sampleLib (NewContextForImage (blank 600 400)) "hello world" 300 18
        (1 / 2) 0 5).calls = (NewContextForImage (blank 600 400)).calls ++ extra ∧
      (∀ s ∈ wrapsOf extra, s = "HELLO WORLD") ∧
      (drawsOf extra).length = 19 ∧
      (∀ a ∈ drawsOf extra, a.s = "HELLO WORLD") := by
  obtain ⟨extra, hc, _, hw, hl, hd, _⟩ :=
    drawText_uppercase sampleLib (NewContextForImage (blank 600 400)) "hello world" 300 18
      (1 / 2) 0 5
  rw [sample_upper_hello] at hw hd
  exact ⟨extra, hc, hw, hl, hd⟩

end Meme
